import Mathlib

/-!
Shallow embedding of the PICOBOOT host-side flashing tool
(`src/picousb.rs` and `src/main.rs`).

Pure data (wire headers, status replies, enum decoding, image slicing,
erase tracking) is translated directly.  USB transport calls are modelled
by an oracle (`DevOracle`) that supplies the outcome of each transfer slot
of one command exchange; `panic!` / `.expect` / `.unwrap` aborts are
modelled as `Except.error`.
-/

/-! ## Constants (src/picousb.rs lines 14-20) -/

def PICO_SECTOR_SIZE : Nat := 256

def PICO_FLASH_START : Nat := 0x10000000

def PICO_STACK_POINTER : Nat := 0x20042000

def PICOBOOT_MAGIC : Nat := 0x431FD10B

/-! ## Little-endian byte encoding (bincode's legacy config: fixed width,
little endian), and byte-level decoding used to state layout facts. -/

def u16le (n : Nat) : List Nat := [n % 256, n / 256 % 256]

def u32le (n : Nat) : List Nat :=
  [n % 256, n / 256 % 256, n / 65536 % 256, n / 16777216 % 256]

def u64le (n : Nat) : List Nat :=
  u32le (n % 4294967296) ++ u32le (n / 4294967296)

def byteAt (b : List Nat) (i : Nat) : Nat := (b[i]?).getD 0

def u32at (b : List Nat) (i : Nat) : Nat :=
  byteAt b i + 256 * byteAt b (i + 1) + 65536 * byteAt b (i + 2) +
    16777216 * byteAt b (i + 3)

/-! ## PicobootCmdId (src/picousb.rs lines 55-98) -/

inductive PicobootCmdId
  | Unknown
  | ExclusiveAccess
  | Reboot
  | FlashErase
  | Read
  | Write
  | ExitXip
  | EnterCmdXip
  | Exec
  | VectorizeFlash
  | Reboot2
  | GetInfo
  | OtpRead
  | OtpWrite
deriving DecidableEq

def PicobootCmdId.code : PicobootCmdId → Nat
  | .Unknown => 0x0
  | .ExclusiveAccess => 0x1
  | .Reboot => 0x2
  | .FlashErase => 0x3
  | .Read => 0x84
  | .Write => 0x5
  | .ExitXip => 0x6
  | .EnterCmdXip => 0x7
  | .Exec => 0x8
  | .VectorizeFlash => 0x9
  | .Reboot2 => 0xA
  | .GetInfo => 0x8B
  | .OtpRead => 0x8C
  | .OtpWrite => 0xD

def PicobootCmdId.tryFrom (x : Nat) : Option PicobootCmdId :=
  if x = PicobootCmdId.Unknown.code then some .Unknown
  else if x = PicobootCmdId.ExclusiveAccess.code then some .ExclusiveAccess
  else if x = PicobootCmdId.Reboot.code then some .Reboot
  else if x = PicobootCmdId.FlashErase.code then some .FlashErase
  else if x = PicobootCmdId.Read.code then some .Read
  else if x = PicobootCmdId.Write.code then some .Write
  else if x = PicobootCmdId.ExitXip.code then some .ExitXip
  else if x = PicobootCmdId.EnterCmdXip.code then some .EnterCmdXip
  else if x = PicobootCmdId.Exec.code then some .Exec
  else if x = PicobootCmdId.VectorizeFlash.code then some .VectorizeFlash
  else if x = PicobootCmdId.Reboot2.code then some .Reboot2
  else if x = PicobootCmdId.GetInfo.code then some .GetInfo
  else if x = PicobootCmdId.OtpRead.code then some .OtpRead
  else if x = PicobootCmdId.OtpWrite.code then some .OtpWrite
  else none

/-! ## PicobootStatus (src/picousb.rs lines 100-148) -/

inductive PicobootStatus
  | Ok
  | UnknownCmd
  | InvalidCmdLength
  | InvalidTransferLength
  | InvalidAddress
  | BadAlignment
  | InterleavedWrite
  | Rebooting
  | UnknownError
  | InvalidState
  | NotPermitted
  | InvalidArg
  | BufferTooSmall
  | PreconditionNotMet
  | ModifiedData
  | InvalidData
  | NotFound
  | UnsupportedModification
deriving DecidableEq

def PicobootStatus.code : PicobootStatus → Nat
  | .Ok => 0
  | .UnknownCmd => 1
  | .InvalidCmdLength => 2
  | .InvalidTransferLength => 3
  | .InvalidAddress => 4
  | .BadAlignment => 5
  | .InterleavedWrite => 6
  | .Rebooting => 7
  | .UnknownError => 8
  | .InvalidState => 9
  | .NotPermitted => 10
  | .InvalidArg => 11
  | .BufferTooSmall => 12
  | .PreconditionNotMet => 13
  | .ModifiedData => 14
  | .InvalidData => 15
  | .NotFound => 16
  | .UnsupportedModification => 17

def PicobootStatus.tryFrom (x : Nat) : Option PicobootStatus :=
  if x = PicobootStatus.Ok.code then some .Ok
  else if x = PicobootStatus.UnknownCmd.code then some .UnknownCmd
  else if x = PicobootStatus.InvalidCmdLength.code then some .InvalidCmdLength
  else if x = PicobootStatus.InvalidTransferLength.code then some .InvalidTransferLength
  else if x = PicobootStatus.InvalidAddress.code then some .InvalidAddress
  else if x = PicobootStatus.BadAlignment.code then some .BadAlignment
  else if x = PicobootStatus.InterleavedWrite.code then some .InterleavedWrite
  else if x = PicobootStatus.Rebooting.code then some .Rebooting
  else if x = PicobootStatus.UnknownError.code then some .UnknownError
  else if x = PicobootStatus.InvalidState.code then some .InvalidState
  else if x = PicobootStatus.NotPermitted.code then some .NotPermitted
  else if x = PicobootStatus.InvalidArg.code then some .InvalidArg
  else if x = PicobootStatus.BufferTooSmall.code then some .BufferTooSmall
  else if x = PicobootStatus.PreconditionNotMet.code then some .PreconditionNotMet
  else if x = PicobootStatus.ModifiedData.code then some .ModifiedData
  else if x = PicobootStatus.InvalidData.code then some .InvalidData
  else if x = PicobootStatus.NotFound.code then some .NotFound
  else if x = PicobootStatus.UnsupportedModification.code then some .UnsupportedModification
  else none

/-! ## Argument blocks (src/picousb.rs lines 150-221) -/

def PicobootRangeCmd.ser (addr size : Nat) : List Nat :=
  u32le addr ++ u32le size ++ u64le 0

def PicobootRebootCmd.ser (pc sp delay : Nat) : List Nat :=
  u32le pc ++ u32le sp ++ u32le delay ++ u32le 0

def PicobootReboot2Cmd.ser (flags delay p0 p1 : Nat) : List Nat :=
  u32le flags ++ u32le delay ++ u32le p0 ++ u32le p1

/-! ## Wire command header (src/picousb.rs lines 233-256) -/

structure PicobootCmd where
  magic : Nat
  token : Nat
  cmd_id : Nat
  cmd_size : Nat
  unused : Nat
  transfer_len : Nat
  args : List Nat
deriving DecidableEq

def PicobootCmd.new (cmd_id : PicobootCmdId) (cmd_size transfer_len : Nat)
    (args : List Nat) : PicobootCmd :=
  { magic := PICOBOOT_MAGIC
    token := 0
    cmd_id := cmd_id.code
    cmd_size := cmd_size
    unused := 0
    transfer_len := transfer_len
    args := args }

/-- bincode serialization of `PicobootCmd` (packed, little endian):
magic(4) | token(4) | cmd_id(1) | cmd_size(1) | reserved(2) | transfer_len(4) | args(16). -/
def serializeCmd (c : PicobootCmd) : List Nat :=
  u32le c.magic ++ u32le c.token ++ [c.cmd_id] ++ [c.cmd_size] ++
    u16le c.unused ++ u32le c.transfer_len ++ c.args

/-! ## Status reply (src/picousb.rs lines 223-231), deserialized by bincode
from the 16-byte zero-initialized control-transfer buffer. -/

structure PicobootStatusCmd where
  token : Nat
  status_code : Nat
  cmd_id : Nat
  in_progress : Nat
deriving DecidableEq

def deserializeStatus (b : List Nat) : PicobootStatusCmd :=
  { token := u32at b 0
    status_code := u32at b 4
    cmd_id := byteAt b 8
    in_progress := byteAt b 9 }

/-- Both enum decodes performed (and `.unwrap`ped) by `get_command_status`. -/
def statusDecodes (b : List Nat) : Bool :=
  (PicobootStatus.tryFrom (deserializeStatus b).status_code).isSome &&
    (PicobootCmdId.tryFrom (deserializeStatus b).cmd_id).isSome

/-! ## Transport model

Every USB call of one command exchange is given its outcome by a
`DevOracle`: `none` models a transport error (the wrapped `rusb` call
returning `Err`, which the source immediately `.expect`s), `some` carries
the transferred length (writes) or the transferred bytes (reads, at most
the requested buffer size; missing trailing bytes of the zero-initialized
control buffer read as 0 via `byteAt`). -/

structure DevOracle where
  hdrRes : Option Nat
  stat1 : Option (List Nat)
  dataWriteRes : Option Nat
  dataReadRes : Option (List Nat)
  stat2 : Option (List Nat)
  ackWriteRes : Option Nat
  ackReadRes : Option (List Nat)
deriving DecidableEq

inductive CmdError
  | transport
  | readMismatch (got expected : Nat)
  | writeMismatch (got expected : Nat)
  | statusDecode
deriving DecidableEq

inductive TransferEvent
  | bulkOut (data : List Nat) (check : Bool)
  | bulkIn (bufSize : Nat) (check : Bool)
  | statusPoll
deriving DecidableEq

/-- src/picousb.rs lines 405-419: `bulk_read` panics on transport error and,
when `check` is set, on a transferred-length mismatch; it returns the buffer
resized to the transferred length (exactly the device's bytes). -/
def bulk_read (buf_size : Nat) (check : Bool) (res : Option (List Nat)) :
    Except CmdError (List Nat) :=
  match res with
  | none => .error .transport
  | some data =>
    if check = true ∧ data.length ≠ buf_size then
      .error (.readMismatch data.length buf_size)
    else .ok data

/-- src/picousb.rs lines 421-433: `bulk_write` panics on transport error and,
when `check` is set, on a transferred-length mismatch. -/
def bulk_write (buf : List Nat) (check : Bool) (res : Option Nat) :
    Except CmdError Unit :=
  match res with
  | none => .error .transport
  | some len =>
    if check = true ∧ len ≠ buf.length then
      .error (.writeMismatch len buf.length)
    else .ok ()

/-- src/picousb.rs lines 540-570: control-transfer status poll; the reply is
deserialized and both its status code and its command id are decoded with
`.unwrap()` (an undecodable value panics).  The decoded values are only
printed; the raw reply is returned. -/
def get_command_status (res : Option (List Nat)) :
    Except CmdError PicobootStatusCmd :=
  match res with
  | none => .error .transport
  | some b =>
    match PicobootStatus.tryFrom (deserializeStatus b).status_code,
        PicobootCmdId.tryFrom (deserializeStatus b).cmd_id with
    | some _, some _ => .ok (deserializeStatus b)
    | some _, none => .error .statusDecode
    | none, _ => .error .statusDecode

/-- src/picousb.rs lines 457-462: the acknowledgment step.  Its direction is
the opposite of the command's read bit, and neither variant checks the
transferred length (`check = false`); only a transport error is fatal. -/
def ackStep (c : PicobootCmd) (o : DevOracle) :
    TransferEvent × Except CmdError Unit :=
  if c.cmd_id &&& 128 ≠ 0 then
    (.bulkOut [0] false, bulk_write [0] false o.ackWriteRes)
  else
    (.bulkIn 1 false, (bulk_read 1 false o.ackReadRes).map fun _ => ())

/-- src/picousb.rs lines 440-464: the body of `cmd` after token assignment:
header bulk-OUT (checked), status poll, optional data phase (checked, with a
second status poll), acknowledgment.  Returns the transfers attempted (in
order) and the result: the data-phase read bytes, `[]` when no read
occurred, or the first fatal error. -/
def cmdSteps (c : PicobootCmd) (buf : List Nat) (o : DevOracle) :
    List TransferEvent × Except CmdError (List Nat) :=
  match bulk_write (serializeCmd c) true o.hdrRes with
  | .error e => ([.bulkOut (serializeCmd c) true], .error e)
  | .ok _ =>
    match get_command_status o.stat1 with
    | .error e => ([.bulkOut (serializeCmd c) true, .statusPoll], .error e)
    | .ok _ =>
      if c.transfer_len = 0 then
        ([.bulkOut (serializeCmd c) true, .statusPoll, (ackStep c o).1],
         match (ackStep c o).2 with
         | .error e => .error e
         | .ok _ => .ok [])
      else if c.cmd_id &&& 128 ≠ 0 then
        match bulk_read c.transfer_len true o.dataReadRes with
        | .error e =>
          ([.bulkOut (serializeCmd c) true, .statusPoll, .bulkIn c.transfer_len true], .error e)
        | .ok data =>
          match get_command_status o.stat2 with
          | .error e =>
            ([.bulkOut (serializeCmd c) true, .statusPoll, .bulkIn c.transfer_len true,
              .statusPoll], .error e)
          | .ok _ =>
            ([.bulkOut (serializeCmd c) true, .statusPoll, .bulkIn c.transfer_len true,
              .statusPoll, (ackStep c o).1],
             match (ackStep c o).2 with
             | .error e => .error e
             | .ok _ => .ok data)
      else
        match bulk_write buf true o.dataWriteRes with
        | .error e =>
          ([.bulkOut (serializeCmd c) true, .statusPoll, .bulkOut buf true], .error e)
        | .ok _ =>
          match get_command_status o.stat2 with
          | .error e =>
            ([.bulkOut (serializeCmd c) true, .statusPoll, .bulkOut buf true,
              .statusPoll], .error e)
          | .ok _ =>
            ([.bulkOut (serializeCmd c) true, .statusPoll, .bulkOut buf true,
              .statusPoll, (ackStep c o).1],
             match (ackStep c o).2 with
             | .error e => .error e
             | .ok _ => .ok [])

/-- src/picousb.rs lines 435-465: one command exchange.  The session token is
assigned to the command, the 32-bit counter is incremented (wrapping, as the
release-mode `u32` addition does), then the transfer choreography runs.
First component: the new session token counter. -/
def cmd (cmd_token : Nat) (c0 : PicobootCmd) (buf : List Nat) (o : DevOracle) :
    Nat × List TransferEvent × Except CmdError (List Nat) :=
  ((cmd_token + 1) % 4294967296, cmdSteps { c0 with token := cmd_token } buf o)

/-! ## Flash operations (src/picousb.rs lines 479-515) -/

def set_exclusive_access_cmd (exclusive : Nat) : PicobootCmd :=
  PicobootCmd.new .ExclusiveAccess 1 0 (exclusive :: List.replicate 15 0)

def flash_erase_cmd (addr size : Nat) : PicobootCmd :=
  PicobootCmd.new .FlashErase 8 0 (PicobootRangeCmd.ser addr size)

def flash_write_cmd (addr : Nat) (buf : List Nat) : PicobootCmd :=
  PicobootCmd.new .Write 8 buf.length (PicobootRangeCmd.ser addr buf.length)

def flash_read_cmd (addr size : Nat) : PicobootCmd :=
  PicobootCmd.new .Read 8 size (PicobootRangeCmd.ser addr size)

def flash_read (cmd_token addr size : Nat) (o : DevOracle) :
    Nat × List TransferEvent × Except CmdError (List Nat) :=
  cmd cmd_token (flash_read_cmd addr size) [] o

/-! ## Flashing orchestrator (src/main.rs) -/

/-- Modelled from the spec: `PICO_PAGE_SIZE` is imported by `main.rs` from
`picousb.rs`, but its defining constant is not present in the available
source.  The spec fixes only that the page size is a positive write
granularity and that "sector is a multiple of page size", so the
development treats the page size as an arbitrary value satisfying this
predicate. -/
def PicoPageSizeSpec (P : Nat) : Prop := 0 < P ∧ P ∣ PICO_SECTOR_SIZE

/-- src/main.rs lines 7-18 (`uf2_pages`): slice the decoded firmware image
(the external UF2 decoder is out of scope per the spec) into blocks of size
`P`, zero-padding the final partial block.  The `step_by(P)` index loop is
rendered as recursion on the remaining suffix: each iteration takes
`size = min (len - i) P` bytes at index `i` and resizes them to `P`
with zeros. -/
def uf2_pages (fw : List Nat) (P : Nat) : List (List Nat) :=
  if h : P = 0 ∨ fw.length = 0 then []
  else
    let size := min fw.length P
    let page := fw.take size
    (page ++ List.replicate (P - page.length) 0) :: uf2_pages (fw.drop P) P
termination_by fw.length
decreasing_by
  simp only [List.length_drop]
  omega

/-- src/main.rs lines 44-59: the per-block erase bookkeeping of the
orchestrator pass.  Block `i` lives at `addr = i * P + PICO_FLASH_START`;
its sector base is `addr - addr % PICO_SECTOR_SIZE`; if the base is not in
`erased_sectors`, `flash_erase(addr, PICO_SECTOR_SIZE)` is called and the
base is pushed.  `erasePass P n` returns the `erased_sectors` list and the
`(addr, size)` arguments of every `flash_erase` call after blocks
`0 .. n-1`. -/
def blockAddr (P i : Nat) : Nat := i * P + PICO_FLASH_START

def sectorBase (a : Nat) : Nat := a - a % PICO_SECTOR_SIZE

def erasePass (P : Nat) : Nat → List Nat × List (Nat × Nat)
  | 0 => ([], [])
  | n + 1 =>
    let st := erasePass P n
    let addr := blockAddr P n
    let sector_addr := sectorBase addr
    if sector_addr ∈ st.1 then st
    else (st.1 ++ [sector_addr], st.2 ++ [(addr, PICO_SECTOR_SIZE)])

/-- src/main.rs lines 70-77: the read-back verification of one block.  The
check passes (no panic) exactly when the count of positionwise-equal bytes
of the written page and the read-back bytes equals `P`. -/
def verify_page (P : Nat) (page readback : List Nat) : Bool :=
  (page.zip readback).countP (fun ab => ab.1 == ab.2) == P

/-! ## Session token counter (src/picousb.rs lines 350 and 436-437) -/

def demoCmd : PicobootCmd := flash_erase_cmd PICO_FLASH_START PICO_SECTOR_SIZE

def demoOracle : DevOracle :=
  { hdrRes := some 32
    stat1 := some (List.replicate 16 0)
    dataWriteRes := some 0
    dataReadRes := some []
    stat2 := some (List.replicate 16 0)
    ackWriteRes := some 1
    ackReadRes := some [0] }

/-- The session's `cmd_token` before exchange `i`: `PicobootConnection::new`
initializes it to 1, and each exchange advances it by the counter update of
`cmd` (which does not depend on the command, buffer, or transport
outcomes). -/
def sessionTokenState : Nat → Nat
  | 0 => 1
  | i + 1 => (cmd (sessionTokenState i) demoCmd [] demoOracle).1

/-! ## Helper lemmas -/

lemma serializeCmd_eq (c : PicobootCmd) : serializeCmd c =
    c.magic % 256 :: c.magic / 256 % 256 :: c.magic / 65536 % 256 ::
    c.magic / 16777216 % 256 ::
    c.token % 256 :: c.token / 256 % 256 :: c.token / 65536 % 256 ::
    c.token / 16777216 % 256 ::
    c.cmd_id :: c.cmd_size :: c.unused % 256 :: c.unused / 256 % 256 ::
    c.transfer_len % 256 :: c.transfer_len / 256 % 256 ::
    c.transfer_len / 65536 % 256 :: c.transfer_len / 16777216 % 256 :: c.args := rfl

lemma serializeCmd_length (c : PicobootCmd) :
    (serializeCmd c).length = 16 + c.args.length := by
  rw [serializeCmd_eq]
  simp
  omega

/-- Claim C7: for every command, the serialized wire header is exactly 32
bytes in little-endian layout: magic (bytes 0-3), token (4-7), command
identifier (8), declared argument length (9), two reserved bytes (10-11),
transfer length (12-15), and the 16-byte argument block (16-31), in that
order. -/
theorem wire_header_layout (c : PicobootCmd)
    (hm : c.magic < 4294967296) (ht : c.token < 4294967296)
    (hu : c.unused = 0) (htl : c.transfer_len < 4294967296)
    (ha : c.args.length = 16) :
    (serializeCmd c).length = 32 ∧
    u32at (serializeCmd c) 0 = c.magic ∧
    u32at (serializeCmd c) 4 = c.token ∧
    byteAt (serializeCmd c) 8 = c.cmd_id ∧
    byteAt (serializeCmd c) 9 = c.cmd_size ∧
    byteAt (serializeCmd c) 10 = 0 ∧
    byteAt (serializeCmd c) 11 = 0 ∧
    u32at (serializeCmd c) 12 = c.transfer_len ∧
    (serializeCmd c).drop 16 = c.args := by
  have hs := serializeCmd_eq c
  have b0 : byteAt (serializeCmd c) 0 = c.magic % 256 := by rw [hs]; simp [byteAt]
  have b1 : byteAt (serializeCmd c) 1 = c.magic / 256 % 256 := by rw [hs]; simp [byteAt]
  have b2 : byteAt (serializeCmd c) 2 = c.magic / 65536 % 256 := by rw [hs]; simp [byteAt]
  have b3 : byteAt (serializeCmd c) 3 = c.magic / 16777216 % 256 := by rw [hs]; simp [byteAt]
  have b4 : byteAt (serializeCmd c) 4 = c.token % 256 := by rw [hs]; simp [byteAt]
  have b5 : byteAt (serializeCmd c) 5 = c.token / 256 % 256 := by rw [hs]; simp [byteAt]
  have b6 : byteAt (serializeCmd c) 6 = c.token / 65536 % 256 := by rw [hs]; simp [byteAt]
  have b7 : byteAt (serializeCmd c) 7 = c.token / 16777216 % 256 := by rw [hs]; simp [byteAt]
  have b8 : byteAt (serializeCmd c) 8 = c.cmd_id := by rw [hs]; simp [byteAt]
  have b9 : byteAt (serializeCmd c) 9 = c.cmd_size := by rw [hs]; simp [byteAt]
  have b10 : byteAt (serializeCmd c) 10 = c.unused % 256 := by rw [hs]; simp [byteAt]
  have b11 : byteAt (serializeCmd c) 11 = c.unused / 256 % 256 := by rw [hs]; simp [byteAt]
  have b12 : byteAt (serializeCmd c) 12 = c.transfer_len % 256 := by rw [hs]; simp [byteAt]
  have b13 : byteAt (serializeCmd c) 13 = c.transfer_len / 256 % 256 := by rw [hs]; simp [byteAt]
  have b14 : byteAt (serializeCmd c) 14 = c.transfer_len / 65536 % 256 := by rw [hs]; simp [byteAt]
  have b15 : byteAt (serializeCmd c) 15 = c.transfer_len / 16777216 % 256 := by
    rw [hs]; simp [byteAt]
  refine ⟨?_, ?_, ?_, b8, b9, ?_, ?_, ?_, ?_⟩
  · rw [serializeCmd_length, ha]
  · simp only [u32at, b0, b1, b2, b3]
    omega
  · simp only [u32at]
    norm_num only
    rw [b4, b5, b6, b7]
    omega
  · rw [b10, hu]
  · rw [b11, hu]
  · simp only [u32at]
    norm_num only
    rw [b12, b13, b14, b15]
    omega
  · rw [hs]
    simp

/-- Witness for `wire_header_layout` at the concrete flash-erase command of
the orchestrator's first sector. -/
theorem wire_header_layout_witness :
    (serializeCmd (flash_erase_cmd 268435456 256)).length = 32 ∧
    u32at (serializeCmd (flash_erase_cmd 268435456 256)) 0 =
      (flash_erase_cmd 268435456 256).magic ∧
    u32at (serializeCmd (flash_erase_cmd 268435456 256)) 4 =
      (flash_erase_cmd 268435456 256).token ∧
    byteAt (serializeCmd (flash_erase_cmd 268435456 256)) 8 =
      (flash_erase_cmd 268435456 256).cmd_id ∧
    byteAt (serializeCmd (flash_erase_cmd 268435456 256)) 9 =
      (flash_erase_cmd 268435456 256).cmd_size ∧
    byteAt (serializeCmd (flash_erase_cmd 268435456 256)) 10 = 0 ∧
    byteAt (serializeCmd (flash_erase_cmd 268435456 256)) 11 = 0 ∧
    u32at (serializeCmd (flash_erase_cmd 268435456 256)) 12 =
      (flash_erase_cmd 268435456 256).transfer_len ∧
    (serializeCmd (flash_erase_cmd 268435456 256)).drop 16 =
      (flash_erase_cmd 268435456 256).args :=
  wire_header_layout (flash_erase_cmd 268435456 256)
    (by decide) (by decide) (by decide) (by decide) (by decide)

lemma ceil_div_step (P a : Nat) (hP : 0 < P) (ha : 1 ≤ a) :
    (a + P - 1) / P = (a - 1) / P + 1 := by
  have h : a + P - 1 = (a - 1) + P := by omega
  rw [h, Nat.add_div_right _ hP]

lemma uf2_pages_aux (P : Nat) (hP : 0 < P) :
    ∀ k, ∀ fw : List Nat, fw.length ≤ k →
      (uf2_pages fw P).length = (fw.length + P - 1) / P ∧
      (∀ pg ∈ uf2_pages fw P, pg.length = P) ∧
      (uf2_pages fw P).flatten.take fw.length = fw := by
  intro k
  induction k with
  | zero =>
    intro fw hk
    have hnil : fw = [] := by
      cases fw with
      | nil => rfl
      | cons a l => simp at hk
    subst hnil
    rw [uf2_pages]
    simp [Nat.div_eq_of_lt (by omega : P - 1 < P)]
  | succ k ih =>
    intro fw hk
    by_cases h0 : fw.length = 0
    · have hnil : fw = [] := by
        cases fw with
        | nil => rfl
        | cons a l => simp at h0
      subst hnil
      rw [uf2_pages]
      simp [Nat.div_eq_of_lt (by omega : P - 1 < P)]
    · have hL : 1 ≤ fw.length := by omega
      have hrec : uf2_pages fw P =
          (fw.take (min fw.length P) ++
            List.replicate (P - (fw.take (min fw.length P)).length) 0) ::
            uf2_pages (fw.drop P) P := by
        rw [uf2_pages]
        simp only [dite_eq_ite]
        rw [if_neg (by omega)]
      have hdlen : (fw.drop P).length = fw.length - P := by simp
      have ihd := ih (fw.drop P) (by omega)
      have htk : (fw.take (min fw.length P)).length = min fw.length P := by
        simp
      refine ⟨?_, ?_, ?_⟩
      · rw [hrec]
        simp only [List.length_cons]
        rw [ihd.1, hdlen, ceil_div_step P fw.length hP hL]
        by_cases hcase : fw.length ≤ P
        · have h1 : fw.length - P = 0 := by omega
          rw [h1]
          have e1 : (0 + P - 1) / P = 0 := Nat.div_eq_of_lt (by omega)
          have e2 : (fw.length - 1) / P = 0 := Nat.div_eq_of_lt (by omega)
          omega
        · have h2 : 1 ≤ fw.length - P := by omega
          rw [ceil_div_step P (fw.length - P) hP h2]
          have h3 : fw.length - 1 = (fw.length - P - 1) + P := by omega
          rw [h3, Nat.add_div_right _ hP]
      · rw [hrec]
        intro pg hpg
        rcases List.mem_cons.mp hpg with hh | hh
        · subst hh
          simp only [List.length_append, htk, List.length_replicate]
          omega
        · exact ihd.2.1 pg hh
      · rw [hrec]
        by_cases hcase : fw.length ≤ P
        · have hdnil : fw.drop P = [] := List.drop_eq_nil_of_le hcase
          have hmin : min fw.length P = fw.length := by omega
          rw [hdnil] at *
          have : uf2_pages ([] : List Nat) P = [] := by
            rw [uf2_pages]; simp
          rw [this]
          simp only [List.flatten_cons, List.flatten_nil, List.append_nil, hmin,
            List.take_length]
          rw [List.take_append_eq_append_take, List.take_length]
          simp
        · have hmin : min fw.length P = P := by omega
          have hpad : P - (fw.take (min fw.length P)).length = 0 := by
            rw [htk]; omega
          rw [hpad]
          simp only [List.replicate_zero, List.append_nil, List.flatten_cons, hmin]
          rw [List.take_append_eq_append_take]
          have hlen2 : (fw.take P).length = P := by simp; omega
          have hiht := ihd.2.2
          rw [hdlen] at hiht
          rw [List.take_of_length_le (by rw [hlen2]; omega), hlen2, hiht]
          exact List.take_append_drop P fw

/-- Claim C6: for every input byte image and positive block size, slicing
produces `ceil(len/B)` blocks, each exactly `B` bytes long (the final
partial block zero-padded), and concatenating all blocks then truncating to
`len` reproduces the original image. -/
theorem uf2_pages_slicing (fw : List Nat) (B : Nat) (hB : 0 < B) :
    (uf2_pages fw B).length = (fw.length + B - 1) / B ∧
    (∀ pg ∈ uf2_pages fw B, pg.length = B) ∧
    (uf2_pages fw B).flatten.take fw.length = fw :=
  uf2_pages_aux B hB fw.length fw (Nat.le_refl _)

/-- Witness for `uf2_pages_slicing`: a five-byte image in two-byte blocks. -/
theorem uf2_pages_slicing_witness :
    (uf2_pages [1, 2, 3, 4, 5] 2).length = (5 + 2 - 1) / 2 ∧
    (∀ pg ∈ uf2_pages [1, 2, 3, 4, 5] 2, pg.length = 2) ∧
    (uf2_pages [1, 2, 3, 4, 5] 2).flatten.take 5 = [1, 2, 3, 4, 5] :=
  uf2_pages_slicing [1, 2, 3, 4, 5] 2 (by decide)

lemma sectorBase_mod (a : Nat) : sectorBase a % PICO_SECTOR_SIZE = 0 := by
  unfold sectorBase
  have hdm := Nat.div_add_mod a PICO_SECTOR_SIZE
  have h2 : a - a % PICO_SECTOR_SIZE =
      PICO_SECTOR_SIZE * (a / PICO_SECTOR_SIZE) := by omega
  rw [h2, Nat.mul_mod_right]

lemma blockAddr_mod (P n : Nat) :
    blockAddr P n % PICO_SECTOR_SIZE = (n * P) % PICO_SECTOR_SIZE := by
  show (n * P + PICO_FLASH_START) % PICO_SECTOR_SIZE = _
  have hF : PICO_FLASH_START = PICO_SECTOR_SIZE * 1048576 := by
    norm_num [PICO_FLASH_START, PICO_SECTOR_SIZE]
  rw [hF, Nat.add_mul_mod_self_left]

/-- Since blocks tile the flash contiguously from the sector-aligned flash
base, the first block that touches a sector sits exactly at the sector's
base: any block whose address is not sector-aligned is preceded by an
earlier block at its sector base. -/
lemma sectorBase_hit (P n : Nat) (hP : 0 < P) (hPS : P ∣ PICO_SECTOR_SIZE)
    (hr : blockAddr P n % PICO_SECTOR_SIZE ≠ 0) :
    ∃ m, m < n ∧ blockAddr P m = sectorBase (blockAddr P n) ∧
      blockAddr P m % PICO_SECTOR_SIZE = 0 := by
  have hSpos : 0 < PICO_SECTOR_SIZE := by norm_num [PICO_SECTOR_SIZE]
  have hrr : blockAddr P n % PICO_SECTOR_SIZE =
      (n * P) % PICO_SECTOR_SIZE := blockAddr_mod P n
  have hPr : P ∣ (n * P) % PICO_SECTOR_SIZE :=
    (Nat.dvd_mod_iff hPS).mpr (dvd_mul_left P n)
  obtain ⟨k, hk⟩ := hPr
  have hrle : (n * P) % PICO_SECTOR_SIZE ≤ n * P := Nat.mod_le _ _
  have hrne : (n * P) % PICO_SECTOR_SIZE ≠ 0 := by rw [hrr] at hr; exact hr
  have hk1 : 1 ≤ k := by
    rcases Nat.eq_zero_or_pos k with h | h
    · rw [h, Nat.mul_zero] at hk; omega
    · exact h
  have hkP : k * P = (n * P) % PICO_SECTOR_SIZE := by
    rw [Nat.mul_comm]; omega
  have hkn : k ≤ n := by
    have h2 : k * P ≤ n * P := by rw [hkP]; exact hrle
    exact Nat.le_of_mul_le_mul_right h2 hP
  have hsub : (n - k) * P = n * P - k * P := Nat.sub_mul n k P
  have hmodeq : (n * P + PICO_FLASH_START) % PICO_SECTOR_SIZE =
      (n * P) % PICO_SECTOR_SIZE := blockAddr_mod P n
  have hdm := Nat.div_add_mod (n * P + PICO_FLASH_START) PICO_SECTOR_SIZE
  refine ⟨n - k, by omega, ?_, ?_⟩
  · show (n - k) * P + PICO_FLASH_START =
      blockAddr P n - blockAddr P n % PICO_SECTOR_SIZE
    unfold blockAddr
    rw [hsub, hkP, hmodeq]
    omega
  · have heq : blockAddr P (n - k) = PICO_SECTOR_SIZE *
        ((n * P + PICO_FLASH_START) / PICO_SECTOR_SIZE) := by
      unfold blockAddr
      rw [hsub, hkP]
      omega
    rw [heq, Nat.mul_mod_right]

lemma erasePass_unfold (P n : Nat) : erasePass P (n + 1) =
    (if sectorBase (blockAddr P n) ∈ (erasePass P n).1 then erasePass P n
     else ((erasePass P n).1 ++ [sectorBase (blockAddr P n)],
       (erasePass P n).2 ++ [(blockAddr P n, PICO_SECTOR_SIZE)])) := rfl

lemma erasePass_inv (P : Nat) (hP : 0 < P) (hPS : P ∣ PICO_SECTOR_SIZE)
    (n : Nat) :
    ((erasePass P n).2.map Prod.fst = (erasePass P n).1) ∧
    (erasePass P n).1.Nodup ∧
    (∀ a ∈ (erasePass P n).1, a % PICO_SECTOR_SIZE = 0) ∧
    (∀ m, m < n → sectorBase (blockAddr P m) ∈ (erasePass P n).1) ∧
    (∀ p ∈ (erasePass P n).2, p.2 = PICO_SECTOR_SIZE) := by
  induction n with
  | zero => simp [erasePass]
  | succ n ih =>
    obtain ⟨ih1, ih2, ih3, ih4, ih5⟩ := ih
    by_cases hmem : sectorBase (blockAddr P n) ∈ (erasePass P n).1
    · rw [erasePass_unfold, if_pos hmem]
      refine ⟨ih1, ih2, ih3, ?_, ih5⟩
      intro m hm
      rcases Nat.lt_succ_iff_lt_or_eq.mp hm with h | h
      · exact ih4 m h
      · rw [h]; exact hmem
    · have halign : blockAddr P n % PICO_SECTOR_SIZE = 0 := by
        by_contra hna
        obtain ⟨m, hmn, heq, hal⟩ := sectorBase_hit P n hP hPS hna
        have hbm := ih4 m hmn
        have h2 : sectorBase (blockAddr P m) = blockAddr P m := by
          unfold sectorBase; omega
        rw [h2, heq] at hbm
        exact hmem hbm
      have hsec : sectorBase (blockAddr P n) = blockAddr P n := by
        unfold sectorBase; omega
      rw [erasePass_unfold, if_neg hmem]
      refine ⟨?_, ?_, ?_, ?_, ?_⟩
      · simp only [List.map_append, List.map_cons, List.map_nil]
        rw [ih1, hsec]
      · rw [List.nodup_append]
        refine ⟨ih2, List.nodup_singleton _, ?_⟩
        intro a ha hb
        rw [List.mem_singleton] at hb
        rw [hb] at ha
        exact hmem ha
      · intro a ha
        rcases List.mem_append.mp ha with h | h
        · exact ih3 a h
        · rw [List.mem_singleton] at h
          rw [h]
          exact sectorBase_mod _
      · intro m hm
        rcases Nat.lt_succ_iff_lt_or_eq.mp hm with h | h
        · exact List.mem_append_left _ (ih4 m h)
        · rw [h]
          exact List.mem_append_right _ (List.mem_singleton_self _)
      · intro p hp
        rcases List.mem_append.mp hp with h | h
        · exact ih5 p h
        · rw [List.mem_singleton] at h
          rw [h]

/-- Claim C1: over one orchestrator pass, each block's containing sector
base is `addr - addr % sector_size`; erase is called only when that base is
not yet tracked, and the base is then added, so every `flash_erase` call of
the pass targets a sector-aligned address equal to its own sector base with
the full sector size, and no two erase calls target the same sector. -/
theorem erase_once_per_sector (P n : Nat) (hspec : PicoPageSizeSpec P) :
    (∀ p ∈ (erasePass P n).2, p.2 = PICO_SECTOR_SIZE ∧
      p.1 % PICO_SECTOR_SIZE = 0 ∧ sectorBase p.1 = p.1) ∧
    ((erasePass P n).2.map Prod.fst).Nodup := by
  obtain ⟨hP, hPS⟩ := hspec
  obtain ⟨h1, h2, h3, _, h5⟩ := erasePass_inv P hP hPS n
  constructor
  · intro p hp
    have hfst : p.1 ∈ (erasePass P n).1 := by
      rw [← h1]
      exact List.mem_map_of_mem Prod.fst hp
    have hal := h3 p.1 hfst
    refine ⟨h5 p hp, hal, ?_⟩
    unfold sectorBase
    omega
  · rw [h1]
    exact h2

/-- Witness for `erase_once_per_sector`: a three-block image with the page
size equal to the sector size. -/
theorem erase_once_per_sector_witness :
    PicoPageSizeSpec 256 ∧
    ((∀ p ∈ (erasePass 256 3).2, p.2 = PICO_SECTOR_SIZE ∧
      p.1 % PICO_SECTOR_SIZE = 0 ∧ sectorBase p.1 = p.1) ∧
    ((erasePass 256 3).2.map Prod.fst).Nodup) :=
  ⟨⟨by norm_num, by norm_num [PICO_SECTOR_SIZE]⟩,
    erase_once_per_sector 256 3 ⟨by norm_num, by norm_num [PICO_SECTOR_SIZE]⟩⟩

lemma cmd_fst (t : Nat) (c : PicobootCmd) (buf : List Nat) (o : DevOracle) :
    (cmd t c buf o).1 = (t + 1) % 4294967296 := rfl

lemma sessionTokenState_closed (i : Nat) :
    sessionTokenState i = (1 + i) % 4294967296 := by
  induction i with
  | zero => rfl
  | succ n ih =>
    show (cmd (sessionTokenState n) demoCmd [] demoOracle).1 = _
    rw [cmd_fst, ih]
    omega

/-- Claim C5 counterexample: the session token counter is a wrapping 32-bit
value, so with enough exchanges tokens stop increasing and are reused: the
token assigned at exchange index 4294967295 is 0, which is not greater than
the token 1 assigned at exchange index 0, and the token at exchange index
4294967296 is 1 again. -/
theorem token_wraparound_counterexample :
    sessionTokenState 0 = 1 ∧
    sessionTokenState 4294967295 = 0 ∧
    ¬ (sessionTokenState 0 < sessionTokenState 4294967295) ∧
    sessionTokenState 4294967296 = sessionTokenState 0 := by
  rw [sessionTokenState_closed 0, sessionTokenState_closed 4294967295,
    sessionTokenState_closed 4294967296]
  norm_num

/-- Claim C5 (amended): within one session the token counter starts at 1 and
the tokens assigned to successive exchanges are strictly increasing, never
reused, as long as the session performs fewer than 2^32 - 1 exchanges (the
32-bit counter wraps afterwards). -/
theorem tokens_strictly_increasing (i j : Nat) (hij : i < j)
    (hj : j < 4294967295) :
    sessionTokenState 0 = 1 ∧ sessionTokenState i < sessionTokenState j := by
  rw [sessionTokenState_closed 0, sessionTokenState_closed i,
    sessionTokenState_closed j]
  constructor
  · norm_num
  · have h1 : (1 + i) % 4294967296 = 1 + i := Nat.mod_eq_of_lt (by omega)
    have h2 : (1 + j) % 4294967296 = 1 + j := Nat.mod_eq_of_lt (by omega)
    omega

/-- Witness for `tokens_strictly_increasing` at exchanges 2 and 7. -/
theorem tokens_strictly_increasing_witness :
    sessionTokenState 0 = 1 ∧ sessionTokenState 2 < sessionTokenState 7 :=
  tokens_strictly_increasing 2 7 (by norm_num) (by norm_num)

/-! ## Exchange-level lemmas -/

def statRes (r : Option (List Nat)) : Prop :=
  ∃ b, r = some b ∧ statusDecodes b = true

lemma gcs_ok (b : List Nat) (hb : statusDecodes b = true) :
    get_command_status (some b) = .ok (deserializeStatus b) := by
  unfold statusDecodes at hb
  rw [Bool.and_eq_true] at hb
  obtain ⟨h1, h2⟩ := hb
  unfold get_command_status
  cases hs : PicobootStatus.tryFrom (deserializeStatus b).status_code with
  | none => rw [hs] at h1; simp at h1
  | some v =>
    cases hc : PicobootCmdId.tryFrom (deserializeStatus b).cmd_id with
    | none => rw [hc] at h2; simp at h2
    | some w => simp [hs, hc]

lemma gcs_fail (b : List Nat) (hb : statusDecodes b = false) :
    get_command_status (some b) = .error .statusDecode := by
  unfold statusDecodes at hb
  unfold get_command_status
  cases hs : PicobootStatus.tryFrom (deserializeStatus b).status_code with
  | none => simp [hs]
  | some v =>
    cases hc : PicobootCmdId.tryFrom (deserializeStatus b).cmd_id with
    | none => simp [hs, hc]
    | some w => rw [hs, hc] at hb; simp at hb

lemma bulk_write_exact (buf : List Nat) :
    bulk_write buf true (some buf.length) = .ok () := by
  unfold bulk_write
  simp

lemma bulk_read_exact (d : List Nat) (size : Nat) (hd : d.length = size) :
    bulk_read size true (some d) = .ok d := by
  unfold bulk_read
  simp [hd]

/-- Claim C3: in every exchange that gets past the header write and first
status poll, a data phase occurs if and only if `transfer_len ≠ 0`; its
direction is determined solely by bit `0x80` of the command identifier
(set: a checked bulk-IN read of exactly `transfer_len` bytes; clear: a
checked bulk-OUT write of the caller's buffer), and it is followed by a
status poll before the acknowledgment. -/
theorem cmd_data_phase (t : Nat) (c : PicobootCmd) (buf : List Nat)
    (o : DevOracle)
    (hh : o.hdrRes = some (serializeCmd { c with token := t }).length)
    (hs1 : statRes o.stat1) (hs2 : statRes o.stat2)
    (hdw : o.dataWriteRes = some buf.length)
    (hdrd : ∃ d, o.dataReadRes = some d ∧ d.length = c.transfer_len) :
    (c.transfer_len = 0 →
      (cmd t c buf o).2.1 =
        [.bulkOut (serializeCmd { c with token := t }) true, .statusPoll,
          (if c.cmd_id &&& 128 ≠ 0 then TransferEvent.bulkOut [0] false
           else TransferEvent.bulkIn 1 false)]) ∧
    (c.transfer_len ≠ 0 → c.cmd_id &&& 128 ≠ 0 →
      (cmd t c buf o).2.1 =
        [.bulkOut (serializeCmd { c with token := t }) true, .statusPoll,
          .bulkIn c.transfer_len true, .statusPoll,
          TransferEvent.bulkOut [0] false]) ∧
    (c.transfer_len ≠ 0 → c.cmd_id &&& 128 = 0 →
      (cmd t c buf o).2.1 =
        [.bulkOut (serializeCmd { c with token := t }) true, .statusPoll,
          .bulkOut buf true, .statusPoll, TransferEvent.bulkIn 1 false]) := by
  obtain ⟨b1, hb1, hd1⟩ := hs1
  obtain ⟨b2, hb2, hd2⟩ := hs2
  obtain ⟨d, hd, hdl⟩ := hdrd
  set c2 : PicobootCmd := { c with token := t } with hc2
  have hTL : c2.transfer_len = c.transfer_len := rfl
  have hID : c2.cmd_id = c.cmd_id := rfl
  have hw : bulk_write (serializeCmd c2) true o.hdrRes = .ok () := by
    rw [hh]; exact bulk_write_exact _
  have hg1 : get_command_status o.stat1 = .ok (deserializeStatus b1) := by
    rw [hb1]; exact gcs_ok b1 hd1
  have hg2 : get_command_status o.stat2 = .ok (deserializeStatus b2) := by
    rw [hb2]; exact gcs_ok b2 hd2
  have hrd : bulk_read c.transfer_len true o.dataReadRes = .ok d := by
    rw [hd]; exact bulk_read_exact d _ hdl
  have hwd : bulk_write buf true o.dataWriteRes = .ok () := by
    rw [hdw]; exact bulk_write_exact buf
  have hackev : (ackStep c2 o).1 =
      (if c.cmd_id &&& 128 ≠ 0 then TransferEvent.bulkOut [0] false
       else TransferEvent.bulkIn 1 false) := by
    unfold ackStep
    rw [hID]
    by_cases hb : c.cmd_id &&& 128 ≠ 0
    · rw [if_pos hb, if_pos hb]
    · rw [if_neg hb, if_neg hb]
  refine ⟨?_, ?_, ?_⟩
  · intro hl
    show (cmdSteps c2 buf o).1 = _
    unfold cmdSteps
    rw [hw, hg1]
    simp only []
    rw [hTL, if_pos hl, hackev]
  · intro hl hbit
    show (cmdSteps c2 buf o).1 = _
    unfold cmdSteps
    rw [hw, hg1]
    simp only []
    rw [hTL, if_neg hl, hID, if_pos hbit, hrd, hg2]
    simp only []
    rw [hackev, if_pos hbit]
  · intro hl hbit
    have hbit2 : ¬ (c.cmd_id &&& 128 ≠ 0) := by omega
    show (cmdSteps c2 buf o).1 = _
    unfold cmdSteps
    rw [hw, hg1]
    simp only []
    rw [hTL, if_neg hl, hID, if_neg hbit2, hwd, hg2]
    simp only []
    rw [hackev, if_neg hbit2]

def w3oracle : DevOracle :=
  { hdrRes := some 32
    stat1 := some (List.replicate 16 0)
    dataWriteRes := some 0
    dataReadRes := some [9, 9, 9, 9]
    stat2 := some (List.replicate 16 0)
    ackWriteRes := some 1
    ackReadRes := some [0] }

/-- Witness for `cmd_data_phase`: a concrete 4-byte flash read performs a
checked bulk-IN data phase followed by a status poll and a zero-byte
bulk-OUT acknowledgment. -/
theorem cmd_data_phase_witness :
    (cmd 1 (flash_read_cmd 268435456 4) [] w3oracle).2.1 =
      [.bulkOut (serializeCmd { flash_read_cmd 268435456 4 with token := 1 })
        true, .statusPoll, .bulkIn 4 true, .statusPoll,
        TransferEvent.bulkOut [0] false] :=
  (cmd_data_phase 1 (flash_read_cmd 268435456 4) [] w3oracle rfl
    ⟨List.replicate 16 0, rfl, by decide⟩ ⟨List.replicate 16 0, rfl, by decide⟩
    rfl ⟨[9, 9, 9, 9], rfl, rfl⟩).2.1 (by decide) (by decide)

/-- Claim C4: in every exchange that reaches the acknowledgment, the
acknowledgment direction is the opposite of the command identifier's read
direction — high bit set: the host sends one zero byte on bulk-OUT; high
bit clear: the host performs a 1-byte bulk-IN read — whether or not a data
phase occurred. -/
theorem cmd_ack_direction (t : Nat) (c : PicobootCmd) (buf : List Nat)
    (o : DevOracle)
    (hh : o.hdrRes = some (serializeCmd { c with token := t }).length)
    (hs1 : statRes o.stat1) (hs2 : statRes o.stat2)
    (hdw : o.dataWriteRes = some buf.length)
    (hdrd : ∃ d, o.dataReadRes = some d ∧ d.length = c.transfer_len) :
    ((cmd t c buf o).2.1).getLast? =
      some (if c.cmd_id &&& 128 ≠ 0 then TransferEvent.bulkOut [0] false
        else TransferEvent.bulkIn 1 false) := by
  obtain ⟨b1, hb1, hd1⟩ := hs1
  obtain ⟨b2, hb2, hd2⟩ := hs2
  obtain ⟨d, hd, hdl⟩ := hdrd
  set c2 : PicobootCmd := { c with token := t } with hc2
  have hTL : c2.transfer_len = c.transfer_len := rfl
  have hID : c2.cmd_id = c.cmd_id := rfl
  have hw : bulk_write (serializeCmd c2) true o.hdrRes = .ok () := by
    rw [hh]; exact bulk_write_exact _
  have hg1 : get_command_status o.stat1 = .ok (deserializeStatus b1) := by
    rw [hb1]; exact gcs_ok b1 hd1
  have hg2 : get_command_status o.stat2 = .ok (deserializeStatus b2) := by
    rw [hb2]; exact gcs_ok b2 hd2
  have hrd : bulk_read c.transfer_len true o.dataReadRes = .ok d := by
    rw [hd]; exact bulk_read_exact d _ hdl
  have hwd : bulk_write buf true o.dataWriteRes = .ok () := by
    rw [hdw]; exact bulk_write_exact buf
  have hackev : (ackStep c2 o).1 =
      (if c.cmd_id &&& 128 ≠ 0 then TransferEvent.bulkOut [0] false
       else TransferEvent.bulkIn 1 false) := by
    unfold ackStep
    rw [hID]
    by_cases hb : c.cmd_id &&& 128 ≠ 0
    · rw [if_pos hb, if_pos hb]
    · rw [if_neg hb, if_neg hb]
  show ((cmdSteps c2 buf o).1).getLast? = _
  unfold cmdSteps
  rw [hw, hg1]
  simp only []
  by_cases hl : c.transfer_len = 0
  · rw [hTL, if_pos hl, hackev]
    rfl
  · by_cases hbit : c.cmd_id &&& 128 ≠ 0
    · rw [hTL, if_neg hl, hID, if_pos hbit, hrd, hg2]
      simp only []
      rw [hackev]
      rfl
    · rw [hTL, if_neg hl, hID, if_neg hbit, hwd, hg2]
      simp only []
      rw [hackev]
      rfl

def w4oracle : DevOracle :=
  { hdrRes := some 32
    stat1 := some (List.replicate 16 0)
    dataWriteRes := some 2
    dataReadRes := some [1, 2]
    stat2 := some (List.replicate 16 0)
    ackWriteRes := some 1
    ackReadRes := some [0] }

/-- Witness for `cmd_ack_direction`: a concrete two-byte flash write (low
command identifier) ends with a 1-byte bulk-IN acknowledgment. -/
theorem cmd_ack_direction_witness :
    ((cmd 1 (flash_write_cmd 268435456 [5, 6]) [5, 6] w4oracle).2.1).getLast? =
      some (TransferEvent.bulkIn 1 false) :=
  cmd_ack_direction 1 (flash_write_cmd 268435456 [5, 6]) [5, 6] w4oracle rfl
    ⟨List.replicate 16 0, rfl, by decide⟩ ⟨List.replicate 16 0, rfl, by decide⟩
    rfl ⟨[1, 2], rfl, rfl⟩

def hdrOk (t : Nat) (c : PicobootCmd) (o : DevOracle) : Prop :=
  o.hdrRes = some (serializeCmd { c with token := t }).length

def dataOk (c : PicobootCmd) (buf : List Nat) (o : DevOracle) : Prop :=
  c.transfer_len = 0 ∨
    (c.cmd_id &&& 128 ≠ 0 ∧
      (∃ d, o.dataReadRes = some d ∧ d.length = c.transfer_len) ∧
      statRes o.stat2) ∨
    (c.cmd_id &&& 128 = 0 ∧ o.dataWriteRes = some buf.length ∧ statRes o.stat2)

def ackRes (c : PicobootCmd) (o : DevOracle) : Prop :=
  if c.cmd_id &&& 128 ≠ 0 then (∃ n, o.ackWriteRes = some n)
  else (∃ d, o.ackReadRes = some d)

/-- Claim C2 (amended): an exchange succeeds exactly when the checked
transfers all succeed with exact lengths, the status polls decode, and the
acknowledgment transfer does not hit a transport error.  In particular a
transport error anywhere, or a length mismatch on the command-header or
data-phase transfers, aborts the exchange; but the acknowledgment
transfer's length is not checked, so an acknowledgment length mismatch does
not abort. -/
theorem cmd_failure_handling (t : Nat) (c : PicobootCmd) (buf : List Nat)
    (o : DevOracle) :
    (∃ v, (cmd t c buf o).2.2 = .ok v) ↔
      (hdrOk t c o ∧ statRes o.stat1 ∧ dataOk c buf o ∧ ackRes c o) := by
  show (∃ v, (cmdSteps { c with token := t } buf o).2 = .ok v) ↔ _
  unfold cmdSteps hdrOk dataOk ackRes statRes
  cases hhr : o.hdrRes with
  | none => simp [bulk_write]
  | some n =>
    by_cases hn : n = (serializeCmd { c with token := t }).length
    · subst hn
      rw [bulk_write_exact]
      simp only []
      cases hs1 : o.stat1 with
      | none => simp [get_command_status]
      | some b1 =>
        by_cases hd1 : statusDecodes b1 = true
        · rw [gcs_ok b1 hd1]
          simp only []
          by_cases hl : c.transfer_len = 0
          · rw [if_pos
              (show ({ c with token := t } : PicobootCmd).transfer_len = 0 from hl)]
            simp only []
            by_cases hbit : c.cmd_id &&& 128 ≠ 0
            · cases haw : o.ackWriteRes with
              | none => simp [ackStep, hbit, bulk_write, hd1, hl, haw]
              | some k => simp [ackStep, hbit, bulk_write, hd1, hl, haw]
            · cases har : o.ackReadRes with
              | none => simp [ackStep, hbit, bulk_read, Except.map, hd1, hl, har]
              | some dd => simp [ackStep, hbit, bulk_read, Except.map, hd1, hl, har]
          · rw [if_neg
              (show ¬ ({ c with token := t } : PicobootCmd).transfer_len = 0 from hl)]
            by_cases hbit : c.cmd_id &&& 128 ≠ 0
            · rw [if_pos
                (show ({ c with token := t } : PicobootCmd).cmd_id &&& 128 ≠ 0 from hbit)]
              cases hdr2 : o.dataReadRes with
              | none => simp [bulk_read, hd1, hl, hbit]
              | some d =>
                by_cases hdl : d.length = c.transfer_len
                · rw [show bulk_read
                      ({ c with token := t } : PicobootCmd).transfer_len true
                      (some d) = .ok d from bulk_read_exact d _ hdl]
                  simp only []
                  cases hs2 : o.stat2 with
                  | none => simp [get_command_status, hd1, hl, hbit, hdl]
                  | some b2 =>
                    by_cases hd2 : statusDecodes b2 = true
                    · rw [gcs_ok b2 hd2]
                      simp only []
                      cases haw : o.ackWriteRes with
                      | none => simp [ackStep, hbit, bulk_write, hd1, hl, hd2, hdl, haw]
                      | some k => simp [ackStep, hbit, bulk_write, hd1, hl, hd2, hdl, haw]
                    · rw [gcs_fail b2 (by simpa using hd2)]
                      simp [hd1, hl, hbit, hd2]
                · simp [bulk_read, hdl, hd1, hl, hbit]
            · rw [if_neg
                (show ¬ ({ c with token := t } : PicobootCmd).cmd_id &&& 128 ≠ 0 from hbit)]
              cases hdwr : o.dataWriteRes with
              | none => simp [bulk_write, hd1, hl, hbit]
              | some m =>
                by_cases hm : m = buf.length
                · subst hm
                  rw [bulk_write_exact]
                  simp only []
                  cases hs2 : o.stat2 with
                  | none => simp [get_command_status, hd1, hl, hbit]
                  | some b2 =>
                    by_cases hd2 : statusDecodes b2 = true
                    · rw [gcs_ok b2 hd2]
                      simp only []
                      cases har : o.ackReadRes with
                      | none => simp [ackStep, hbit, bulk_read, Except.map, hd1, hl, hd2, har]
                      | some dd =>
                        simp [ackStep, hbit, bulk_read, Except.map, hd1, hl, hd2, har]
                        omega
                    · rw [gcs_fail b2 (by simpa using hd2)]
                      simp [hd1, hl, hbit, hd2]
                · simp [bulk_write, hm, hd1, hl, hbit]
        · rw [gcs_fail b1 (by simpa using hd1)]
          simp [hd1]
    · simp [bulk_write, hn]

def c2oracle : DevOracle :=
  { hdrRes := some 32
    stat1 := some (List.replicate 16 0)
    dataWriteRes := none
    dataReadRes := none
    stat2 := none
    ackWriteRes := none
    ackReadRes := some [] }

/-- Claim C2 counterexample: the acknowledgment transfer is not length
checked.  In this concrete flash-erase exchange the final 1-byte
acknowledgment bulk-IN read transfers 0 bytes — a transferred-length
mismatch — yet the exchange completes successfully instead of aborting. -/
theorem ack_mismatch_not_fatal :
    c2oracle.ackReadRes = some [] ∧ ([] : List Nat).length ≠ 1 ∧
    (cmd 1 (flash_erase_cmd 268435456 256) [] c2oracle).2.2 = .ok [] ∧
    ((cmd 1 (flash_erase_cmd 268435456 256) [] c2oracle).2.1).getLast? =
      some (TransferEvent.bulkIn 1 false) :=
  ⟨rfl, by decide, rfl, rfl⟩

/-- Claim C8: decoding a status reply's numeric status code succeeds exactly
for the 18 defined values 0 through 17 and fails for every other 32-bit
value; and during a status poll any undecodable status or
command-identifier value makes `get_command_status` fatal rather than acted
upon. -/
theorem status_decode_range :
    (∀ x : Nat, x < 4294967296 →
      ((PicobootStatus.tryFrom x).isSome ↔ x < 18)) ∧
    (∀ b : List Nat,
      (PicobootStatus.tryFrom (deserializeStatus b).status_code = none ∨
        PicobootCmdId.tryFrom (deserializeStatus b).cmd_id = none) →
      get_command_status (some b) = .error .statusDecode) := by
  constructor
  · intro x hx
    constructor
    · intro hsome
      by_contra hge
      push_neg at hge
      have hnone : PicobootStatus.tryFrom x = none := by
        unfold PicobootStatus.tryFrom
        simp only [PicobootStatus.code]
        iterate 18 rw [if_neg (by omega)]
      rw [hnone] at hsome
      simp at hsome
    · intro hlt
      interval_cases x <;> decide
  · intro b hb
    unfold get_command_status
    rcases hb with h | h
    · simp [h]
    · cases hs : PicobootStatus.tryFrom (deserializeStatus b).status_code with
      | none => simp [hs]
      | some v => simp [hs, h]

/-- Witness for `status_decode_range` at the undefined status value 18. -/
theorem status_decode_range_witness :
    ((18 : Nat) < 4294967296 ∧
      ((PicobootStatus.tryFrom 18).isSome ↔ (18 : Nat) < 18)) ∧
    get_command_status
      (some [0, 0, 0, 0, 18, 0, 0, 0, 0, 0, 0, 0, 0, 0, 0, 0]) =
      .error .statusDecode :=
  ⟨⟨by norm_num, status_decode_range.1 18 (by norm_num)⟩,
    status_decode_range.2 _ (Or.inl (by decide))⟩

lemma countP_zip_eq_length_iff (l1 l2 : List Nat) (h : l1.length = l2.length) :
    ((l1.zip l2).countP (fun ab => ab.1 == ab.2) = l1.length) ↔ l1 = l2 := by
  induction l1 generalizing l2 with
  | nil =>
    cases l2 with
    | nil => simp
    | cons b bs => simp at h
  | cons a as ih =>
    cases l2 with
    | nil => simp at h
    | cons b bs =>
      simp only [List.length_cons] at h
      have hlen : as.length = bs.length := by omega
      by_cases hab : a = b
      · subst hab
        rw [List.zip_cons_cons, List.countP_cons_of_pos _ _ (by simp),
          List.length_cons]
        have hiff := ih bs hlen
        constructor
        · intro hc
          have : (as.zip bs).countP (fun ab => ab.1 == ab.2) = as.length := by
            omega
          rw [hiff.mp this]
        · intro he
          have : as = bs := by
            injection he
          rw [hiff.mpr this]
      · rw [List.zip_cons_cons,
          List.countP_cons_of_neg _ _ (by simp [hab]), List.length_cons]
        have hle := List.countP_le_length
          (p := fun ab : Nat × Nat => ab.1 == ab.2) (l := as.zip bs)
        have hzl : (as.zip bs).length = as.length := by
          rw [List.length_zip]
          omega
        constructor
        · intro hc
          omega
        · intro he
          injection he with h1 h2
          exact absurd h1 hab

lemma cmdSteps_read_ok_length (c : PicobootCmd) (buf : List Nat)
    (o : DevOracle) (d : List Nat) (hbit : c.cmd_id &&& 128 ≠ 0)
    (hok : (cmdSteps c buf o).2 = .ok d) : d.length = c.transfer_len := by
  unfold cmdSteps at hok
  cases hbw : bulk_write (serializeCmd c) true o.hdrRes with
  | error e => rw [hbw] at hok; simp at hok
  | ok u =>
    rw [hbw] at hok
    simp only [] at hok
    cases hg1 : get_command_status o.stat1 with
    | error e => rw [hg1] at hok; simp at hok
    | ok st =>
      rw [hg1] at hok
      simp only [] at hok
      by_cases hl : c.transfer_len = 0
      · rw [if_pos hl] at hok
        simp only [] at hok
        cases hack : (ackStep c o).2 with
        | error e => rw [hack] at hok; simp at hok
        | ok uu =>
          rw [hack] at hok
          simp only [] at hok
          have hd : d = [] := by simpa using hok.symm
          rw [hd, hl]
          rfl
      · rw [if_neg hl, if_pos hbit] at hok
        cases hdrr : o.dataReadRes with
        | none => rw [hdrr] at hok; simp [bulk_read] at hok
        | some dd =>
          rw [hdrr] at hok
          by_cases hlen : dd.length = c.transfer_len
          · rw [bulk_read_exact dd _ hlen] at hok
            simp only [] at hok
            cases hg2 : get_command_status o.stat2 with
            | error e => rw [hg2] at hok; simp at hok
            | ok st2 =>
              rw [hg2] at hok
              simp only [] at hok
              cases hack : (ackStep c o).2 with
              | error e => rw [hack] at hok; simp at hok
              | ok uu =>
                rw [hack] at hok
                simp only [] at hok
                have hd : d = dd := by simpa using hok.symm
                rw [hd]
                exact hlen
          · simp [bulk_read, hlen] at hok

/-- Claim C9: a successful `flash_read(addr, size)` returns exactly `size`
bytes, and the orchestrator's read-back verification check succeeds if and
only if the read-back bytes equal the written block byte for byte (any
mismatch panics, aborting the run). -/
theorem readback_verification (P : Nat) (page readback : List Nat)
    (t addr size : Nat) (o : DevOracle) (d : List Nat)
    (hp : page.length = P) (hr : readback.length = P)
    (hok : (flash_read t addr size o).2.2 = .ok d) :
    d.length = size ∧ (verify_page P page readback = true ↔ page = readback) := by
  constructor
  · exact cmdSteps_read_ok_length
      { flash_read_cmd addr size with token := t } [] o d
      (by show (132 : Nat) &&& 128 ≠ 0; decide) hok
  · unfold verify_page
    rw [beq_iff_eq]
    have := countP_zip_eq_length_iff page readback (by omega)
    rw [hp] at this
    exact this

def w9oracle : DevOracle :=
  { hdrRes := some 32
    stat1 := some (List.replicate 16 0)
    dataWriteRes := some 0
    dataReadRes := some [7]
    stat2 := some (List.replicate 16 0)
    ackWriteRes := some 1
    ackReadRes := some [0] }

/-- Witness for `readback_verification`: a one-byte read returns one byte,
and equal two-byte pages verify. -/
theorem readback_verification_witness :
    ([7] : List Nat).length = 1 ∧
    (verify_page 2 [1, 2] [1, 2] = true ↔ ([1, 2] : List Nat) = [1, 2]) :=
  readback_verification 2 [1, 2] [1, 2] 1 268435456 1 w9oracle [7]
    (by decide) (by decide) rfl

lemma byteAt_ge4_congr (b b2 : List Nat) (h : b.drop 4 = b2.drop 4) (i : Nat)
    (hi : 4 ≤ i) : byteAt b i = byteAt b2 i := by
  obtain ⟨j, rfl⟩ : ∃ j, i = 4 + j := ⟨i - 4, by omega⟩
  unfold byteAt
  rw [← List.getElem?_drop, ← List.getElem?_drop, h]

lemma statusDecodes_drop4 (b b2 : List Nat) (h : b.drop 4 = b2.drop 4) :
    statusDecodes b = statusDecodes b2 := by
  unfold statusDecodes deserializeStatus u32at
  simp only []
  rw [byteAt_ge4_congr b b2 h 4 (by omega),
    byteAt_ge4_congr b b2 h (4 + 1) (by omega),
    byteAt_ge4_congr b b2 h (4 + 2) (by omega),
    byteAt_ge4_congr b b2 h (4 + 3) (by omega),
    byteAt_ge4_congr b b2 h 8 (by omega)]

/-- Two status-poll replies that agree outside their echoed-token field lead
`get_command_status` to aligned outcomes: the same error, or both decode
successfully. -/
lemma gcs_align (r r2 : Option (List Nat))
    (h : r.map (List.drop 4) = r2.map (List.drop 4)) :
    (∃ e, get_command_status r = .error e ∧ get_command_status r2 = .error e) ∨
    (∃ s s2, get_command_status r = .ok s ∧ get_command_status r2 = .ok s2) := by
  cases r with
  | none =>
    cases r2 with
    | none => exact Or.inl ⟨.transport, rfl, rfl⟩
    | some b => simp at h
  | some b =>
    cases r2 with
    | none => simp at h
    | some b2 =>
      simp only [Option.map_some', Option.some.injEq] at h
      by_cases hdec : statusDecodes b = true
      · exact Or.inr ⟨_, _, gcs_ok b hdec,
          gcs_ok b2 (by rw [← statusDecodes_drop4 b b2 h]; exact hdec)⟩
      · refine Or.inl ⟨.statusDecode, gcs_fail b (by simpa using hdec),
          gcs_fail b2 ?_⟩
        rw [← statusDecodes_drop4 b b2 h]
        simpa using hdec

/-- Claim C10: the protocol engine never compares the echoed token of a
status reply with the sent token: for status replies that agree outside
their token field (bytes 0-3), the whole exchange proceeds identically —
same transfers, same result, same counter update. -/
theorem cmd_token_echo_ignored (t : Nat) (c : PicobootCmd) (buf : List Nat)
    (o o2 : DevOracle)
    (hs1 : o.stat1.map (List.drop 4) = o2.stat1.map (List.drop 4))
    (hs2 : o.stat2.map (List.drop 4) = o2.stat2.map (List.drop 4))
    (hhr : o.hdrRes = o2.hdrRes) (hdw : o.dataWriteRes = o2.dataWriteRes)
    (hdr : o.dataReadRes = o2.dataReadRes) (haw : o.ackWriteRes = o2.ackWriteRes)
    (har : o.ackReadRes = o2.ackReadRes) :
    cmd t c buf o = cmd t c buf o2 := by
  unfold cmd
  have hack : ackStep { c with token := t } o = ackStep { c with token := t } o2 := by
    unfold ackStep
    rw [haw, har]
  unfold cmdSteps
  rw [hhr, hdw, hdr, hack]
  rcases gcs_align o.stat1 o2.stat1 hs1 with ⟨e, he1, he2⟩ | ⟨s, s2, ho1, ho2⟩
  · rw [he1, he2]
  · rw [ho1, ho2]
    simp only []
    rcases gcs_align o.stat2 o2.stat2 hs2 with ⟨e, he1, he2⟩ | ⟨s3, s4, hq1, hq2⟩
    · rw [he1, he2]
    · rw [hq1, hq2]

def w10oracle : DevOracle :=
  { demoOracle with stat1 := some ([5, 6, 7, 8] ++ List.replicate 12 0) }

/-- Witness for `cmd_token_echo_ignored`: changing only the echoed token
bytes of the first status reply leaves the whole exchange unchanged. -/
theorem cmd_token_echo_ignored_witness :
    cmd 1 demoCmd [] demoOracle = cmd 1 demoCmd [] w10oracle :=
  cmd_token_echo_ignored 1 demoCmd [] demoOracle w10oracle (by decide) rfl
    rfl rfl rfl rfl rfl
